import Mathlib

/-
Verification of the link-shortener engine (backend/app) against its
natural-language specification.

Shallow embedding conventions:
- time is modelled in whole seconds (Nat); `Option Nat` models nullable
  timestamps (`expires_at`);
- the durable store is a `List Link` queried in insertion order, mirroring
  `db.query(Link).filter(Link.suffix == code).first()`;
- the volatile store (Redis) is modelled with lazy key expiry: a key whose
  absolute expiry time is at or before the current clock behaves as absent,
  matching Redis TTL semantics;
- Python truthiness on optional integers (`if expires_in_days:`,
  `if link.max_clicks:`) is mirrored by explicit tests against `some 0`.
-/

namespace LinkShortener

/-! ## Constants (redis_client.py, config.py) -/

/-- `RedisService.CACHE_TTL` (redis_client.py): cache ceiling of 24 hours. -/
def CACHE_TTL : Nat := 86400

/-- `RedisService.RATE_LIMIT_TTL` (redis_client.py): one-hour window. -/
def RATE_LIMIT_TTL : Nat := 3600

/-- `Settings.DEFAULT_EXPIRY_DAYS` (config.py). -/
def DEFAULT_EXPIRY_DAYS : Nat := 30

/-- Seconds in one day, used for `timedelta(days=n)`. -/
def secondsPerDay : Nat := 86400

/-! ## Link records as the service layer uses them (services.py) -/

/-- A link record carrying the attributes that `services.py`, `routes.py` and
`tasks.py` read and write on the ORM object. -/
structure Link where
  suffix : String
  destination : String
  expiresAt : Option Nat
  passwordHash : Option String
  maxClicks : Option Nat
  clickCount : Nat
deriving Repr, DecidableEq

/-- The columns actually declared on the `Link` model in models.py. -/
def linkTableColumns : List String :=
  ["id", "short_code", "original_url", "created_at", "expires_at",
   "is_active", "click_count", "creator_ip_hash"]

/-- The `Link` attributes that `LinkService.get_original_url` requires: the
query filters on `Link.suffix` and the result reads `link.destination` and
`link.expires_at`. -/
def resolverLinkAttrs : List String := ["suffix", "destination", "expires_at"]

/-! ## Rate limiter (RedisService.check_rate_limit) -/

/-- The volatile rate-limit counter for one identity: the stored value and
the absolute time at which the key expires (`setex` sets it to
now + RATE_LIMIT_TTL; `incr` leaves it unchanged). -/
structure RLEntry where
  value : Nat
  keyExpiry : Nat
deriving Repr, DecidableEq

/-- `RedisService.check_rate_limit` for one identity. The state is `none`
when the key is absent; a stored key behaves as absent once the clock
reaches its expiry (Redis TTL). Returns (allowed, remaining, new state). -/
def check_rate_limit (st : Option RLEntry) (limit : Nat) (now : Nat) :
    Bool × Int × Option RLEntry :=
  match st with
  | none => (true, (limit : Int) - 1, some ⟨1, now + RATE_LIMIT_TTL⟩)
  | some e =>
    if now < e.keyExpiry then
      if limit ≤ e.value then
        (false, 0, some e)
      else
        (true, (limit : Int) - e.value - 1, some ⟨e.value + 1, e.keyExpiry⟩)
    else
      (true, (limit : Int) - 1, some ⟨1, now + RATE_LIMIT_TTL⟩)

/-- Run a sequence of `check_rate_limit` calls at the given times, collecting
the allowed/denied verdicts and the final counter state. -/
def rlRun (limit : Nat) : List Nat → Option RLEntry → List Bool × Option RLEntry
  | [], st => ([], st)
  | t :: ts, st =>
    let r := check_rate_limit st limit t
    let rest := rlRun limit ts r.2.2
    (r.1 :: rest.1, rest.2)

/-- The counter value an inspection of the volatile store would report. -/
def rlCount (st : Option RLEntry) : Nat :=
  match st with
  | none => 0
  | some e => e.value

/-! ## Link cache (RedisService.cache_link / get_cached_link / delete_cached_link) -/

/-- A cached link entry: the stored URL and the absolute expiry time of the
Redis key (`none` after `persist`, `some t` after `expire`). -/
structure CacheEntry where
  url : String
  keyExpiry : Option Nat
deriving Repr, DecidableEq

/-- The link cache, keyed by code. -/
abbrev Cache := List (String × CacheEntry)

/-- Store an entry under a key, replacing any previous entry. -/
def setEntry (c : Cache) (k : String) (e : CacheEntry) : Cache :=
  (k, e) :: c.filter (fun p => !(p.1 == k))

/-- Remove the entry stored under a key (`redis.delete`). -/
def delEntry (c : Cache) (k : String) : Cache :=
  c.filter (fun p => !(p.1 == k))

/-- Raw lookup of the stored entry, ignoring expiry. -/
def lookupEntry (c : Cache) (k : String) : Option CacheEntry :=
  (c.find? (fun p => p.1 == k)).map (fun p => p.2)

/-- `RedisService.cache_link`: write the url under `link:{code}`, then set the
key TTL to `min(remaining-time-to(expires_at), CACHE_TTL)` when `expires_at`
is in the future, drop the key when `expires_at` has already passed, and
persist the key (no expiry) when `expires_at` is null. Returns the new cache
and the boolean result of the call. -/
def cache_link (c : Cache) (code url : String) (expiresAt : Option Nat)
    (now : Nat) : Cache × Bool :=
  match expiresAt with
  | some e =>
    if now < e then
      (setEntry c code ⟨url, some (now + min (e - now) CACHE_TTL)⟩, true)
    else
      (delEntry c code, false)
  | none => (setEntry c code ⟨url, none⟩, true)

/-- `RedisService.get_cached_link`: read the url stored under the code; a key
whose TTL has elapsed behaves as absent. -/
def get_cached_link (c : Cache) (code : String) (now : Nat) : Option String :=
  match lookupEntry c code with
  | none => none
  | some e =>
    match e.keyExpiry with
    | none => some e.url
    | some t => if now < t then some e.url else none

/-! ## Code membership set (RedisService set operations) -/

/-- `RedisService.remove_code_from_set` (`srem`). -/
def remove_code_from_set (codes : List String) (code : String) : List String :=
  codes.filter (fun c => !(c == code))

/-- `RedisService.sync_codes_from_db`: when the code list is non-empty, delete
the whole membership set and re-add every code; when the list is empty the
set is not touched. -/
def sync_codes_from_db (codes_set : List String) (codes : List String) :
    List String :=
  if codes.isEmpty then codes_set else codes

/-- The code list the reconciliation task extracts from the durable store
(`tasks.sync_redis_codes`): every non-empty suffix. -/
def dbCodes (db : List Link) : List String :=
  (db.map (fun l => l.suffix)).filter (fun s => !(s == ""))

/-- `tasks.sync_redis_codes`: rebuild the membership set from the durable
store through `RedisService.sync_codes_from_db`. -/
def sync_redis_codes (codes_set : List String) (db : List Link) : List String :=
  sync_codes_from_db codes_set (dbCodes db)

/-! ## Resolution (LinkService.get_original_url) -/

/-- The volatile store state the resolver touches. -/
structure RedisState where
  cache : Cache
  codes : List String
deriving Repr, DecidableEq

/-- `LinkService.get_original_url`: cache hit returns directly; on a miss
query the durable store; an absent row yields (none, false); a row whose
`expires_at` is set and strictly before now purges the cache and membership
entries and yields (none, true); otherwise the cache is repopulated through
`cache_link` and the destination returned. The durable store is returned
unchanged: the function never writes to it. -/
def get_original_url (st : RedisState) (db : List Link) (code : String)
    (now : Nat) : Option String × Bool × RedisState × List Link :=
  match get_cached_link st.cache code now with
  | some url => (some url, false, st, db)
  | none =>
    match db.find? (fun l => l.suffix == code) with
    | none => (none, false, st, db)
    | some link =>
      match link.expiresAt with
      | some e =>
        if e < now then
          (none, true,
           ⟨delEntry st.cache code, remove_code_from_set st.codes code⟩, db)
        else
          (some link.destination, false,
           ⟨(cache_link st.cache code link.destination (some e) now).1,
            st.codes⟩, db)
      | none =>
        (some link.destination, false,
         ⟨(cache_link st.cache code link.destination none now).1,
          st.codes⟩, db)

/-! ## Expiry computation in LinkService.create_link (services.py lines 86-92) -/

/-- The `expires_at` computed by `LinkService.create_link`: a truthy
`expires_in_days` (present and non-zero) gives now + that many days,
otherwise now + DEFAULT_EXPIRY_DAYS days. -/
def create_link_expires_at (expires_in_days : Option Nat) (now : Nat) : Nat :=
  match expires_in_days with
  | some d => if d ≠ 0 then now + d * secondsPerDay
              else now + DEFAULT_EXPIRY_DAYS * secondsPerDay
  | none => now + DEFAULT_EXPIRY_DAYS * secondsPerDay

/-! ## Password gating (services.py, routes.py) -/

/-- `verify_password` (services.py): hash the supplied password with the
digest function and compare with the stored digest. The SHA-256 primitive is
an external library call, abstracted as the parameter `sha256`. -/
def verify_password (sha256 : String → String) (password passwordHash : String) :
    Bool :=
  sha256 password == passwordHash

/-- Modelled from the spec: SHA-256 (`hashlib.sha256(...).hexdigest()`) is a
standard-library primitive outside the repository; it is modelled as an
injective placeholder digest so that concrete runs can be evaluated. -/
def sha256Model (s : String) : String := String.append "sha256-" s

/-- `LinkService.verify_link_password`: look up the link; an absent link gives
(false, none); a link with no `password_hash` gives (true, destination); a
matching password gives (true, destination); a non-matching password gives
(false, none). -/
def verify_link_password (sha256 : String → String) (db : List Link)
    (code password : String) : Bool × Option String :=
  match db.find? (fun l => l.suffix == code) with
  | none => (false, none)
  | some link =>
    match link.passwordHash with
    | none => (true, some link.destination)
    | some h =>
      if verify_password sha256 password h then (true, some link.destination)
      else (false, none)

/-- The observable outcome of the `/unlock/{code}` route. -/
inductive UnlockResult where
  | ok (redirectUrl : String)
  | notFound
  | incorrectPassword
deriving Repr, DecidableEq

/-- Python `str.lower()` on a whole string. -/
def pyLowerString (s : String) : String := String.mk (s.data.map Char.toLower)

/-- `routes.unlock_password_link`: lowercase the code, call
`verify_link_password`; on failure answer 404 when the returned url is none
and 401 otherwise; on success answer with the redirect url. -/
def unlock_password_link (sha256 : String → String) (db : List Link)
    (code password : String) : UnlockResult :=
  match verify_link_password sha256 db (pyLowerString code) password with
  | (false, none) => UnlockResult.notFound
  | (false, some _) => UnlockResult.incorrectPassword
  | (true, u) => UnlockResult.ok (u.getD "")

/-! ## Click counting (LinkService.increment_click_count) -/

/-- Increment the click count of the first link whose suffix matches,
mirroring the in-place mutation of the queried row. -/
def bumpClick : List Link → String → List Link
  | [], _ => []
  | l :: rest, code =>
    if l.suffix == code then
      { l with clickCount := l.clickCount + 1 } :: rest
    else
      l :: bumpClick rest code

/-- `LinkService.increment_click_count`: an absent link gives (db, false,
false); otherwise the click count is incremented and committed, and the
max-reached flag is `link.max_clicks and link.click_count >= link.max_clicks`
evaluated on the incremented row (a null or zero `max_clicks` is falsy). -/
def increment_click_count (db : List Link) (code : String) :
    List Link × Bool × Bool :=
  match db.find? (fun l => l.suffix == code) with
  | none => (db, false, false)
  | some link =>
    let maxReached :=
      match link.maxClicks with
      | some m => (!(m == 0)) && (m ≤ link.clickCount + 1)
      | none => false
    (bumpClick db code, true, maxReached)

/-! ## Random code generation (utils.generate_short_code) -/

/-- The alphabet of `generate_short_code`: lowercase ASCII letters plus
digits (`string.ascii_lowercase + string.digits`). -/
def codeAlphabet : List Char := "abcdefghijklmnopqrstuvwxyz0123456789".toList

/-- One `secrets.choice(alphabet)` draw, indexed by an arbitrary random
number reduced modulo the alphabet size. -/
def pickChar (k : Nat) : Char := codeAlphabet.getD (k % codeAlphabet.length) 'a'

/-- `utils.generate_short_code`: a string of `length` independent draws from
the alphabet; `randoms` supplies the random source. Texts are modelled as
`List Char`. -/
def generate_short_code (length : Nat) (randoms : Nat → Nat) : List Char :=
  (List.range length).map (fun i => pickChar (randoms i))

/-! ## Custom-code sanitization (security.sanitize_custom_code) -/

/-- Python `str.strip()`: drop whitespace from both ends. -/
def pyStrip (s : List Char) : List Char :=
  ((s.dropWhile Char.isWhitespace).reverse.dropWhile Char.isWhitespace).reverse

/-- Python `str.lower()` on the ASCII inputs the sanitizer handles. -/
def pyLower (s : List Char) : List Char := s.map Char.toLower

/-- Membership in the regex class `[a-z0-9]`. -/
def isLowerAlnumChar (c : Char) : Bool :=
  ('a' ≤ c && c ≤ 'z') || ('0' ≤ c && c ≤ '9')

/-- The tail of the anchored regex `[a-z0-9][a-z0-9-]*[a-z0-9]$`: middle
characters from `[a-z0-9-]`, final character from `[a-z0-9]`. -/
def codeBodyOk : List Char → Bool
  | [] => false
  | [c] => isLowerAlnumChar c
  | c :: rest => (isLowerAlnumChar c || c == '-') && codeBodyOk rest

/-- The full anchored regex
`^[a-z0-9][a-z0-9-]*[a-z0-9]$|^[a-z0-9]$` as a decision procedure. -/
def codeFormatOk : List Char → Bool
  | [] => false
  | [c] => isLowerAlnumChar c
  | c :: rest => isLowerAlnumChar c && codeBodyOk rest

/-- The pattern starts the text: `pat` matches the leading characters. -/
def isTextStart : List Char → List Char → Bool
  | [], _ => true
  | _ :: _, [] => false
  | p :: ps, t :: ts => (p == t) && isTextStart ps ts

/-- `re.search` with a literal pattern: the pattern occurs as a contiguous
substring of the text. -/
def containsSub (pat : List Char) : List Char → Bool
  | [] => pat.isEmpty
  | c :: rest => isTextStart pat (c :: rest) || containsSub pat rest

/-- The regex class `\w`. -/
def isWordChar (c : Char) : Bool := c.isAlpha || c.isDigit || c == '_'

/-- The regex `\w+=` anchored at the start of the text: one or more word
characters immediately followed by an equals sign. -/
def wordRunEq : List Char → Bool
  | [] => false
  | [_] => false
  | c :: c2 :: rest => isWordChar c && ((c2 == '=') || wordRunEq (c2 :: rest))

/-- The regex `on\w+=` anchored at the start of the text. -/
def onEqAt (s : List Char) : Bool :=
  match s with
  | c1 :: c2 :: r => (c1 == 'o') && (c2 == 'n') && wordRunEq r
  | _ => false

/-- `re.search(r"on\w+=", text)`: the event-handler pattern occurs somewhere
in the text. -/
def hasOnEq : List Char → Bool
  | [] => false
  | c :: rest => onEqAt (c :: rest) || hasOnEq rest

/-- The dangerous-pattern scan of `sanitize_custom_code` over the five
patterns `<script`, `javascript:`, `on\w+=`, `<iframe`, `<img`. -/
def hasDangerous (c : List Char) : Bool :=
  containsSub "<script".toList c || containsSub "javascript:".toList c ||
  hasOnEq c || containsSub "<iframe".toList c || containsSub "<img".toList c

/-- `security.sanitize_custom_code`: an empty code is accepted as the empty
string; otherwise the code is stripped and lowercased, rejected when it
fails the anchored format regex, rejected when a dangerous pattern occurs,
and accepted unchanged otherwise. -/
def sanitize_custom_code (code : List Char) : Bool × List Char × Option String :=
  if code.isEmpty then (true, [], none)
  else
    let c := pyLower (pyStrip code)
    if codeFormatOk c then
      if hasDangerous c then (false, c, some "Invalid characters in code")
      else (true, c, none)
    else
      (false, c,
       some "Code must contain only letters, numbers, and hyphens. Cannot start or end with hyphen.")

/-! ## Helper lemmas -/

theorem lookupEntry_setEntry (c : Cache) (k : String) (e : CacheEntry) :
    lookupEntry (setEntry c k e) k = some e := by
  simp [lookupEntry, setEntry, List.find?]

theorem lookupEntry_delEntry (c : Cache) (k : String) :
    lookupEntry (delEntry c k) k = none := by
  induction c with
  | nil => rfl
  | cons p rest ih =>
    by_cases h : (p.1 == k) = true
    · simpa [delEntry, lookupEntry, List.filter, h] using ih
    · have h' : (p.1 == k) = false := by simpa using h
      simpa [delEntry, lookupEntry, List.filter, List.find?, h'] using ih

theorem not_mem_remove_code (codes : List String) (code : String) :
    code ∉ remove_code_from_set codes code := by
  simp [remove_code_from_set, List.mem_filter]

theorem contains_remove_code (codes : List String) (code : String) :
    (remove_code_from_set codes code).contains code = false := by
  have h := not_mem_remove_code codes code
  induction codes with
  | nil => rfl
  | cons s rest ih =>
    by_cases hs : s = code
    · subst hs
      simpa [remove_code_from_set, List.filter_cons] using
        ih (not_mem_remove_code rest s)
    · have h1 : (s == code) = false := beq_eq_false_iff_ne.mpr hs
      have h2 : (code == s) = false := beq_eq_false_iff_ne.mpr (Ne.symm hs)
      simp only [remove_code_from_set, List.filter_cons, h1, Bool.not_false,
        if_true, List.contains_cons, h2, Bool.false_or]
      exact ih (not_mem_remove_code rest code)

/-! ## Claim C1 -/

/-- Claim C1, refuted by the code: the resolution operation filters on
`Link.suffix` and reads `link.destination`, but the `Link` model in models.py
declares neither attribute (its columns are `short_code` and `original_url`),
so every resolution raises `AttributeError` instead of returning one of the
three outcomes. This theorem records the divergence: the attributes the
resolver requires are absent from the declared column list. -/
theorem C1_resolver_fields_missing_from_model :
    resolverLinkAttrs.contains "suffix" = true ∧
    resolverLinkAttrs.contains "destination" = true ∧
    linkTableColumns.contains "suffix" = false ∧
    linkTableColumns.contains "destination" = false := by
  decide

/-! ## Claim C2 -/

/-- Claim C2 as stated is false: with limit 1, two Allow calls inside one
window leave the counter at 1, not at the call count 2 — the denied second
call does not increment the counter (`check_rate_limit` returns before
`incr` when `current >= limit`). -/
theorem C2_counterexample :
    (rlRun 1 [0, 10] none).1 = [true, false] ∧
    rlCount (rlRun 1 [0, 10] none).2 = 1 ∧
    (rlCount (rlRun 1 [0, 10] none).2 == 2) = false := by
  decide

theorem rlRun_counter_aux (limit : Nat) (ts : List Nat) :
    ∀ (k E : Nat), 1 ≤ k → (∀ t ∈ ts, t < E) →
    (rlRun limit ts (some ⟨min k limit, E⟩)).2 =
      some ⟨min (k + ts.length) limit, E⟩ := by
  induction ts with
  | nil =>
    intro k E hk hts
    simp [rlRun]
  | cons t ts ih =>
    intro k E hk hts
    have htE : t < E := hts t (List.mem_cons_self t ts)
    have hts' : ∀ u ∈ ts, u < E := fun u hu => hts u (List.mem_cons_of_mem _ hu)
    rw [rlRun]
    simp only
    by_cases hlim : limit ≤ min k limit
    · have step : (check_rate_limit (some ⟨min k limit, E⟩) limit t).2.2 =
          some ⟨min k limit, E⟩ := by
        simp [check_rate_limit, htE, hlim]
      rw [step]
      have hst : (⟨min k limit, E⟩ : RLEntry) = ⟨min (k + 1) limit, E⟩ := by
        have : min k limit = min (k + 1) limit := by omega
        rw [this]
      rw [hst, ih (k + 1) E (by omega) hts']
      simp only [List.length_cons]
      have : k + 1 + ts.length = k + (ts.length + 1) := by omega
      rw [this]
    · have step : (check_rate_limit (some ⟨min k limit, E⟩) limit t).2.2 =
          some ⟨min k limit + 1, E⟩ := by
        simp [check_rate_limit, htE, hlim]
      rw [step]
      have hst : (⟨min k limit + 1, E⟩ : RLEntry) = ⟨min (k + 1) limit, E⟩ := by
        have : min k limit + 1 = min (k + 1) limit := by omega
        rw [this]
      rw [hst, ih (k + 1) E (by omega) hts']
      simp only [List.length_cons]
      have : k + 1 + ts.length = k + (ts.length + 1) := by omega
      rw [this]

/-- Claim C2 amended: an Allow call finding the counter at or above the limit
is denied and does NOT increment the counter; after n calls inside one
window the counter equals min(n, limit), not n. -/
theorem C2_amended_counter (limit : Nat) (hl : 1 ≤ limit) (t0 : Nat)
    (ts : List Nat) (hts : ∀ t ∈ ts, t < t0 + RATE_LIMIT_TTL) :
    rlCount (rlRun limit (t0 :: ts) none).2 = min (ts.length + 1) limit := by
  have step : (check_rate_limit none limit t0).2.2 =
      some ⟨1, t0 + RATE_LIMIT_TTL⟩ := rfl
  rw [rlRun]
  simp only
  rw [step]
  have hst : (⟨1, t0 + RATE_LIMIT_TTL⟩ : RLEntry) =
      ⟨min 1 limit, t0 + RATE_LIMIT_TTL⟩ := by
    rw [Nat.min_eq_left hl]
  rw [hst, rlRun_counter_aux limit ts 1 (t0 + RATE_LIMIT_TTL) (Nat.le_refl 1) hts]
  simp [rlCount, Nat.add_comm]

theorem C2_amended_counter_witness :
    1 ≤ 2 ∧ rlCount (rlRun 2 [0, 1, 2, 3] none).2 = min (3 + 1) 2 := by
  refine ⟨by decide, ?_⟩
  have h := C2_amended_counter 2 (by decide) 0 [1, 2, 3] (by decide)
  simpa using h

/-! ## Claim C5 -/

/-- Claim C5 as stated is false: with a durable store holding no codes and a
membership set holding "a", the rebuild step leaves "a" in the membership
set, so the set does not equal the (empty) set of durable codes. -/
theorem C5_counterexample :
    (sync_redis_codes ["a"] []).contains "a" = true ∧
    (dbCodes []).contains "a" = false := by
  decide

/-- Claim C5 amended: when the durable store holds at least one code, the
rebuild step is a complete overwrite — the membership set becomes exactly
the durable code list, whatever it held before; when the durable store holds
no codes the membership set is left unchanged. -/
theorem C5_amended_rebuild (codes_set : List String) (db : List Link)
    (h : (dbCodes db).isEmpty = false) :
    sync_redis_codes codes_set db = dbCodes db := by
  unfold sync_redis_codes sync_codes_from_db
  rw [h]
  simp

theorem C5_amended_rebuild_witness :
    (dbCodes [⟨"a", "https://example.com/", none, none, none, 0⟩]).isEmpty
      = false ∧
    sync_redis_codes ["x", "y"] [⟨"a", "https://example.com/", none, none, none, 0⟩]
      = dbCodes [⟨"a", "https://example.com/", none, none, none, 0⟩] :=
  ⟨by decide,
   C5_amended_rebuild ["x", "y"] [⟨"a", "https://example.com/", none, none, none, 0⟩]
     (by decide)⟩

/-! ## Claim C8 -/

/-- Claim C8: an allocation whose expiry day-count is zero or absent gets
`expires_at = now + DEFAULT_EXPIRY_DAYS days` (never `now` itself), so it is
never immediately expired. -/
theorem C8_default_expiry (d : Option Nat) (now : Nat)
    (h : d = none ∨ d = some 0) :
    create_link_expires_at d now = now + DEFAULT_EXPIRY_DAYS * secondsPerDay ∧
    now < create_link_expires_at d now := by
  rcases h with h | h <;> subst h <;>
    exact ⟨rfl, by simp [create_link_expires_at, DEFAULT_EXPIRY_DAYS, secondsPerDay]⟩

theorem C8_default_expiry_witness :
    create_link_expires_at (some 0) 1000 = 1000 + DEFAULT_EXPIRY_DAYS * secondsPerDay ∧
    1000 < create_link_expires_at (some 0) 1000 :=
  C8_default_expiry (some 0) 1000 (Or.inr rfl)

/-! ## Claim C7 -/

/-- Claim C7: starting with no counter and limit 3, four Allow calls inside
one window are allowed, allowed, allowed, denied; a further call made once
the time-to-live of the counter has elapsed is allowed again. -/
theorem C7_rate_window (t0 t1 t2 t3 t4 : Nat)
    (h1 : t1 < t0 + RATE_LIMIT_TTL) (h2 : t2 < t0 + RATE_LIMIT_TTL)
    (h3 : t3 < t0 + RATE_LIMIT_TTL) (h4 : t0 + RATE_LIMIT_TTL ≤ t4) :
    (rlRun 3 [t0, t1, t2, t3, t4] none).1 =
      [true, true, true, false, true] := by
  have h4' : ¬ t4 < t0 + RATE_LIMIT_TTL := Nat.not_lt.mpr h4
  have s0 : check_rate_limit none 3 t0 =
      (true, 2, some ⟨1, t0 + RATE_LIMIT_TTL⟩) := rfl
  have s1 : check_rate_limit (some ⟨1, t0 + RATE_LIMIT_TTL⟩) 3 t1 =
      (true, 1, some ⟨2, t0 + RATE_LIMIT_TTL⟩) := by
    simp [check_rate_limit, h1]
  have s2 : check_rate_limit (some ⟨2, t0 + RATE_LIMIT_TTL⟩) 3 t2 =
      (true, 0, some ⟨3, t0 + RATE_LIMIT_TTL⟩) := by
    simp [check_rate_limit, h2]
  have s3 : check_rate_limit (some ⟨3, t0 + RATE_LIMIT_TTL⟩) 3 t3 =
      (false, 0, some ⟨3, t0 + RATE_LIMIT_TTL⟩) := by
    simp [check_rate_limit, h3]
  have s4 : check_rate_limit (some ⟨3, t0 + RATE_LIMIT_TTL⟩) 3 t4 =
      (true, 2, some ⟨1, t4 + RATE_LIMIT_TTL⟩) := by
    simp [check_rate_limit, h4']
  simp [rlRun, s0, s1, s2, s3, s4]

theorem C7_rate_window_witness :
    (rlRun 3 [0, 1, 2, 3, 3600] none).1 = [true, true, true, false, true] :=
  C7_rate_window 0 1 2 3 3600 (by decide) (by decide) (by decide) (by decide)

/-! ## Claim C9 -/

/-- Claim C9: cache population applies a time-to-live of
min(remaining-time-to(expires_at), CACHE_TTL) when `expires_at` is in the
future; it leaves no cache entry when `expires_at` has already passed; and
it stores the entry without any expiry when `expires_at` is null. -/
theorem C9_cache_ttl (c : Cache) (code url : String) (now : Nat) :
    (∀ e, now < e →
      lookupEntry (cache_link c code url (some e) now).1 code =
        some ⟨url, some (now + min (e - now) CACHE_TTL)⟩ ∧
      (cache_link c code url (some e) now).2 = true) ∧
    (∀ e, e ≤ now →
      lookupEntry (cache_link c code url (some e) now).1 code = none ∧
      (cache_link c code url (some e) now).2 = false) ∧
    lookupEntry (cache_link c code url none now).1 code = some ⟨url, none⟩ := by
  refine ⟨fun e he => ⟨?_, ?_⟩, fun e he => ⟨?_, ?_⟩, ?_⟩
  · simp [cache_link, he, lookupEntry_setEntry]
  · simp [cache_link, he]
  · have : ¬ now < e := Nat.not_lt.mpr he
    simp [cache_link, this, lookupEntry_delEntry]
  · have : ¬ now < e := Nat.not_lt.mpr he
    simp [cache_link, this]
  · simp [cache_link, lookupEntry_setEntry]

theorem C9_cache_ttl_witness :
    lookupEntry (cache_link [] "ab" "u" (some 100) 40).1 "ab" =
      some ⟨"u", some 100⟩ ∧
    (cache_link [] "ab" "u" (some 100) 40).2 = true ∧
    lookupEntry (cache_link [("ab", ⟨"u", none⟩)] "ab" "u" (some 40) 40).1 "ab"
      = none ∧
    (cache_link [("ab", ⟨"u", none⟩)] "ab" "u" (some 40) 40).2 = false ∧
    lookupEntry (cache_link [] "cd" "v" none 7).1 "cd" = some ⟨"v", none⟩ := by
  have hfut := (C9_cache_ttl [] "ab" "u" 40).1 100 (by decide)
  have hpast := (C9_cache_ttl [("ab", ⟨"u", none⟩)] "ab" "u" 40).2.1 40
    (by decide)
  have hnone := (C9_cache_ttl [] "cd" "v" 7).2.2
  refine ⟨?_, hfut.2, hpast.1, hpast.2, hnone⟩
  simpa using hfut.1

/-! ## Claim C3 -/

/-- Claim C3, refuted by the code: an incorrect password on a
password-protected link makes `verify_link_password` return (false, none),
the same value it returns for an absent link, so the unlock route answers
"Link not found" in both cases — the incorrect-password outcome is NOT
distinguishable from the not-found outcome (the 401 branch of the route is
unreachable), although the test suite of the repository expects 401. -/
theorem C3_wrong_password_collapses_to_not_found :
    verify_link_password sha256Model
      [⟨"wrongpw", "https://example.com/page", none,
        some (sha256Model "secret123"), none, 0⟩]
      "wrongpw" "wrongpassword" = (false, none) ∧
    verify_link_password sha256Model [] "wrongpw" "wrongpassword"
      = (false, none) ∧
    unlock_password_link sha256Model
      [⟨"wrongpw", "https://example.com/page", none,
        some (sha256Model "secret123"), none, 0⟩]
      "wrongpw" "wrongpassword" = UnlockResult.notFound ∧
    unlock_password_link sha256Model [] "wrongpw" "wrongpassword"
      = UnlockResult.notFound := by
  decide

/-! ## Claim C6 -/

/-- Claim C6: resolving a code whose durable record exists but has expired
(and which has no live cache entry) removes any cache entry and any
membership-set entry for the code, returns the Expired outcome with no
destination, and leaves the durable store untouched. -/
theorem C6_lazy_expiry_frame (st : RedisState) (db : List Link) (code : String)
    (now e : Nat) (link : Link)
    (hcache : get_cached_link st.cache code now = none)
    (hfind : db.find? (fun l => l.suffix == code) = some link)
    (hexp : link.expiresAt = some e) (hlt : e < now) :
    get_original_url st db code now =
      (none, true,
       ⟨delEntry st.cache code, remove_code_from_set st.codes code⟩, db) ∧
    lookupEntry (delEntry st.cache code) code = none ∧
    (remove_code_from_set st.codes code).contains code = false := by
  refine ⟨?_, lookupEntry_delEntry _ _, contains_remove_code _ _⟩
  unfold get_original_url
  rw [hcache, hfind]
  dsimp only
  rw [hexp]
  simp [hlt]

theorem C6_lazy_expiry_frame_witness :
    get_original_url ⟨[], ["ab", "x"]⟩
      [⟨"ab", "https://e.com", some 5, none, none, 0⟩] "ab" 10 =
      (none, true,
       ⟨delEntry [] "ab", remove_code_from_set ["ab", "x"] "ab"⟩,
       [⟨"ab", "https://e.com", some 5, none, none, 0⟩]) ∧
    lookupEntry (delEntry [] "ab") "ab" = none ∧
    (remove_code_from_set ["ab", "x"] "ab").contains "ab" = false :=
  C6_lazy_expiry_frame ⟨[], ["ab", "x"]⟩
    [⟨"ab", "https://e.com", some 5, none, none, 0⟩] "ab" 10 5
    ⟨"ab", "https://e.com", some 5, none, none, 0⟩
    rfl (by decide) rfl (by decide)

/-! ## Claim C4 -/

theorem find?_cons_eq (p : Link → Bool) (a : Link) (l : List Link) :
    List.find? p (a :: l) = if p a then some a else List.find? p l := by
  by_cases h : p a = true <;> simp [h]

theorem find?_bumpClick (db : List Link) (code : String) (link : Link)
    (hfind : db.find? (fun l => l.suffix == code) = some link) :
    (bumpClick db code).find? (fun l => l.suffix == code) =
      some { link with clickCount := link.clickCount + 1 } := by
  induction db with
  | nil => simp [List.find?] at hfind
  | cons l rest ih =>
    by_cases h : (l.suffix == code) = true
    · have hl : l = link := by
        rw [find?_cons_eq, if_pos h] at hfind
        exact Option.some.inj hfind
      subst hl
      rw [bumpClick, if_pos h, find?_cons_eq, if_pos (by simpa using h)]
    · have h' : (l.suffix == code) = false := by simpa using h
      rw [find?_cons_eq, if_neg (by simp [h'])] at hfind
      rw [bumpClick, if_neg (by simp [h']), find?_cons_eq,
        if_neg (by simp [h'])]
      exact ih hfind

/-- Claim C4: when access to a link is allowed (password matched or no
password required) and the link has a well-formed click ceiling (absent, or
at least 1 as the request schema enforces), incrementing bumps the stored
click count by exactly one and reports the max-reached flag exactly when the
post-increment count reaches or exceeds `max_clicks`; an absent ceiling
never reports it. In particular a link with max_clicks 1 and click_count 0
succeeds and reports the flag on the first allowed evaluation. -/
theorem C4_click_increment (sha256 : String → String) (db : List Link)
    (code password : String) (link : Link)
    (hfind : db.find? (fun l => l.suffix == code) = some link)
    (_hallowed : (verify_link_password sha256 db code password).1 = true)
    (hmc : link.maxClicks ≠ some 0) :
    increment_click_count db code =
      (bumpClick db code, true,
       match link.maxClicks with
       | some m => decide (m ≤ link.clickCount + 1)
       | none => false) ∧
    (bumpClick db code).find? (fun l => l.suffix == code) =
      some { link with clickCount := link.clickCount + 1 } := by
  refine ⟨?_, find?_bumpClick db code link hfind⟩
  unfold increment_click_count
  rw [hfind]
  cases hm : link.maxClicks with
  | none => simp [hm]
  | some m =>
    have hm0 : (m == 0) = false := by
      have : m ≠ 0 := fun h => hmc (by rw [hm, h])
      simpa using this
    simp [hm, hm0]

theorem C4_click_increment_witness :
    increment_click_count
      [⟨"c", "https://example.com/y", none, none, some 1, 0⟩] "c" =
      (bumpClick [⟨"c", "https://example.com/y", none, none, some 1, 0⟩] "c",
       true, true) ∧
    (bumpClick [⟨"c", "https://example.com/y", none, none, some 1, 0⟩] "c").find?
        (fun l => l.suffix == "c") =
      some ⟨"c", "https://example.com/y", none, none, some 1, 1⟩ := by
  have h := C4_click_increment sha256Model
    [⟨"c", "https://example.com/y", none, none, some 1, 0⟩] "c" ""
    ⟨"c", "https://example.com/y", none, none, some 1, 0⟩
    (by decide) (by decide) (by decide)
  simpa using h

/-! ## Claim C10: lemmas about the alphabet and the sanitizer -/

theorem codeAlphabet_char_facts : ∀ c ∈ codeAlphabet,
    isLowerAlnumChar c = true ∧ c.isWhitespace = false ∧
    Char.toLower c = c ∧ c ≠ '-' ∧ c ≠ '<' ∧ c ≠ ':' ∧ c ≠ '=' := by
  decide

theorem pickChar_mem (k : Nat) : pickChar k ∈ codeAlphabet := by
  have hb : ∀ m, m < codeAlphabet.length →
      codeAlphabet.getD m 'a' ∈ codeAlphabet := by decide
  exact hb (k % codeAlphabet.length) (Nat.mod_lt k (by decide))

theorem generate_short_code_mem (n : Nat) (randoms : Nat → Nat) :
    ∀ c ∈ generate_short_code n randoms, c ∈ codeAlphabet := by
  intro c hc
  unfold generate_short_code at hc
  rw [List.mem_map] at hc
  obtain ⟨i, _, rfl⟩ := hc
  exact pickChar_mem _

theorem dropWhile_eq_self_of (p : Char → Bool) (l : List Char)
    (h : ∀ c ∈ l, p c = false) : l.dropWhile p = l := by
  cases l with
  | nil => rfl
  | cons a t =>
    rw [List.dropWhile_cons]
    simp [h a (List.mem_cons_self a t)]

theorem pyStrip_eq_self (l : List Char)
    (h : ∀ c ∈ l, c.isWhitespace = false) : pyStrip l = l := by
  unfold pyStrip
  rw [dropWhile_eq_self_of _ l h]
  rw [dropWhile_eq_self_of _ l.reverse
    (fun c hc => h c (List.mem_reverse.mp hc))]
  exact List.reverse_reverse l

theorem pyLower_eq_self (l : List Char)
    (h : ∀ c ∈ l, Char.toLower c = c) : pyLower l = l := by
  induction l with
  | nil => rfl
  | cons a t ih =>
    unfold pyLower
    rw [List.map_cons, h a (List.mem_cons_self a t)]
    have ht := ih (fun c hc => h c (List.mem_cons_of_mem _ hc))
    unfold pyLower at ht
    rw [ht]

theorem codeBodyOk_of_all :
    ∀ (l : List Char), (∀ c ∈ l, isLowerAlnumChar c = true) → l ≠ [] →
      codeBodyOk l = true
  | [], _, hne => absurd rfl hne
  | [c], h, _ => by
    show isLowerAlnumChar c = true
    exact h c (List.mem_cons_self c [])
  | c :: c2 :: t, h, _ => by
    show ((isLowerAlnumChar c || c == '-') && codeBodyOk (c2 :: t)) = true
    have hc := h c (List.mem_cons_self _ _)
    have ht := codeBodyOk_of_all (c2 :: t)
      (fun d hd => h d (List.mem_cons_of_mem _ hd)) (by simp)
    simp [hc, ht]

theorem codeFormatOk_of_all (l : List Char)
    (h : ∀ c ∈ l, isLowerAlnumChar c = true) (hne : l ≠ []) :
    codeFormatOk l = true := by
  cases l with
  | nil => exact absurd rfl hne
  | cons c t =>
    cases t with
    | nil =>
      show isLowerAlnumChar c = true
      exact h c (List.mem_cons_self c [])
    | cons c2 t2 =>
      show (isLowerAlnumChar c && codeBodyOk (c2 :: t2)) = true
      have hc := h c (List.mem_cons_self _ _)
      have ht := codeBodyOk_of_all (c2 :: t2)
        (fun d hd => h d (List.mem_cons_of_mem _ hd)) (by simp)
      simp [hc, ht]

theorem isTextStart_eq_false :
    ∀ (pat text : List Char) (ch : Char), ch ∈ pat →
      (∀ c ∈ text, c ≠ ch) → isTextStart pat text = false
  | [], _, ch, hch, _ => absurd hch (List.not_mem_nil ch)
  | _ :: _, [], _, _, _ => rfl
  | p :: ps, t :: ts, ch, hch, htext => by
    show ((p == t) && isTextStart ps ts) = false
    rcases List.mem_cons.mp hch with he | he
    · have hne : p ≠ t := by
        intro hpt
        apply htext t (List.mem_cons_self t ts)
        rw [← hpt, ← he]
      simp [beq_eq_false_iff_ne.mpr hne]
    · have h2 := isTextStart_eq_false ps ts ch he
        (fun c hc => htext c (List.mem_cons_of_mem _ hc))
      simp [h2]

theorem containsSub_eq_false :
    ∀ (pat text : List Char) (ch : Char), ch ∈ pat →
      (∀ c ∈ text, c ≠ ch) → containsSub pat text = false
  | pat, [], ch, hch, _ => by
    cases pat with
    | nil => exact absurd hch (List.not_mem_nil ch)
    | cons p ps => rfl
  | pat, t :: ts, ch, hch, htext => by
    rw [containsSub]
    rw [isTextStart_eq_false pat (t :: ts) ch hch htext]
    rw [containsSub_eq_false pat ts ch hch
      (fun c hc => htext c (List.mem_cons_of_mem _ hc))]
    rfl

theorem wordRunEq_eq_false :
    ∀ (l : List Char), (∀ c ∈ l, c ≠ '=') → wordRunEq l = false
  | [], _ => rfl
  | [_], _ => rfl
  | a :: b :: t, h => by
    show (isWordChar a && ((b == '=') || wordRunEq (b :: t))) = false
    have hb : (b == '=') = false :=
      beq_eq_false_iff_ne.mpr (h b (List.mem_cons_of_mem _ (List.mem_cons_self b t)))
    have ht := wordRunEq_eq_false (b :: t)
      (fun c hc => h c (List.mem_cons_of_mem _ hc))
    simp [hb, ht]

theorem onEqAt_eq_false (l : List Char) (h : ∀ c ∈ l, c ≠ '=') :
    onEqAt l = false := by
  cases l with
  | nil => rfl
  | cons c1 t =>
    cases t with
    | nil => rfl
    | cons c2 r =>
      have hr := wordRunEq_eq_false r
        (fun c hc => h c (List.mem_cons_of_mem _ (List.mem_cons_of_mem _ hc)))
      simp [onEqAt, hr]

theorem hasOnEq_eq_false :
    ∀ (l : List Char), (∀ c ∈ l, c ≠ '=') → hasOnEq l = false
  | [], _ => rfl
  | c :: t, h => by
    rw [hasOnEq]
    rw [onEqAt_eq_false (c :: t) h]
    rw [hasOnEq_eq_false t (fun d hd => h d (List.mem_cons_of_mem _ hd))]
    rfl

theorem hasDangerous_eq_false (l : List Char)
    (hmem : ∀ c ∈ l, c ∈ codeAlphabet) : hasDangerous l = false := by
  have hlt : ∀ c ∈ l, c ≠ '<' :=
    fun c hc => (codeAlphabet_char_facts c (hmem c hc)).2.2.2.2.1
  have hcol : ∀ c ∈ l, c ≠ ':' :=
    fun c hc => (codeAlphabet_char_facts c (hmem c hc)).2.2.2.2.2.1
  have heq : ∀ c ∈ l, c ≠ '=' :=
    fun c hc => (codeAlphabet_char_facts c (hmem c hc)).2.2.2.2.2.2
  unfold hasDangerous
  rw [containsSub_eq_false "<script".toList l '<' (by decide) hlt]
  rw [containsSub_eq_false "javascript:".toList l ':' (by decide) hcol]
  rw [hasOnEq_eq_false l heq]
  rw [containsSub_eq_false "<iframe".toList l '<' (by decide) hlt]
  rw [containsSub_eq_false "<img".toList l '<' (by decide) hlt]
  rfl

theorem head?_all_of (p : Char → Bool) (l : List Char)
    (h : ∀ c ∈ l, p c = true) : l.head?.all p = true := by
  cases l with
  | nil => rfl
  | cons a t => simpa using h a (List.mem_cons_self a t)

theorem getLast?_all_of (p : Char → Bool) :
    ∀ (l : List Char), (∀ c ∈ l, p c = true) → l.getLast?.all p = true
  | [], _ => rfl
  | [a], h => by simpa using h a (List.mem_cons_self a [])
  | a :: b :: t, h => by
    rw [List.getLast?_cons_cons]
    exact getLast?_all_of p (b :: t) (fun c hc => h c (List.mem_cons_of_mem _ hc))

theorem contains_eq_false_of_not_mem (l : List Char) (x : Char)
    (h : x ∉ l) : l.contains x = false := by
  induction l with
  | nil => rfl
  | cons a t ih =>
    rw [List.contains_cons]
    have hxa : (x == a) = false :=
      beq_eq_false_iff_ne.mpr (fun he => h (he ▸ List.mem_cons_self a t))
    rw [hxa, ih (fun hm => h (List.mem_cons_of_mem _ hm))]
    rfl

/-- Claim C10: every generated short code has exactly the requested (positive)
length, consists only of lowercase letters and digits, contains no hyphen
(so in particular neither starts nor ends with one), and is accepted
unchanged by `sanitize_custom_code`. -/
theorem C10_generated_codes_valid (n : Nat) (randoms : Nat → Nat)
    (hn : 0 < n) :
    (generate_short_code n randoms).length = n ∧
    (∀ c ∈ generate_short_code n randoms, isLowerAlnumChar c = true) ∧
    (generate_short_code n randoms).contains '-' = false ∧
    (generate_short_code n randoms).head?.all (fun c => !(c == '-')) = true ∧
    (generate_short_code n randoms).getLast?.all (fun c => !(c == '-')) = true ∧
    sanitize_custom_code (generate_short_code n randoms) =
      (true, generate_short_code n randoms, none) := by
  set cd := generate_short_code n randoms with hcd
  have hmem : ∀ c ∈ cd, c ∈ codeAlphabet := generate_short_code_mem n randoms
  have hfacts := fun c hc => codeAlphabet_char_facts c (hmem c hc)
  have hlen : cd.length = n := by rw [hcd]; simp [generate_short_code]
  have hne : cd ≠ [] := by
    intro h
    rw [h] at hlen
    simp at hlen
    omega
  have halnum : ∀ c ∈ cd, isLowerAlnumChar c = true :=
    fun c hc => (hfacts c hc).1
  have hnd : ∀ c ∈ cd, (!(c == '-')) = true := by
    intro c hc
    simpa using (hfacts c hc).2.2.2.1
  have hcontains : cd.contains '-' = false := by
    apply contains_eq_false_of_not_mem
    intro hm
    exact (hfacts '-' hm).2.2.2.1 rfl
  have hstrip : pyStrip cd = cd :=
    pyStrip_eq_self cd (fun c hc => (hfacts c hc).2.1)
  have hlower : pyLower cd = cd :=
    pyLower_eq_self cd (fun c hc => (hfacts c hc).2.2.1)
  have hfmt : codeFormatOk cd = true := codeFormatOk_of_all cd halnum hne
  have hdang : hasDangerous cd = false := hasDangerous_eq_false cd hmem
  have hie : cd.isEmpty = false := by
    cases hc : cd with
    | nil => exact absurd hc hne
    | cons a t => rfl
  have hsan : sanitize_custom_code cd = (true, cd, none) := by
    unfold sanitize_custom_code
    simp [hie, hstrip, hlower, hfmt, hdang]
  exact ⟨hlen, halnum, hcontains, head?_all_of _ cd hnd,
    getLast?_all_of _ cd hnd, hsan⟩

theorem C10_generated_codes_valid_witness :
    0 < 7 ∧
    (generate_short_code 7 (fun i => i * 5)).length = 7 ∧
    sanitize_custom_code (generate_short_code 7 (fun i => i * 5)) =
      (true, generate_short_code 7 (fun i => i * 5), none) := by
  have h := C10_generated_codes_valid 7 (fun i => i * 5) (by decide)
  exact ⟨by decide, h.1, h.2.2.2.2.2⟩

end LinkShortener
